import Mathlib

/-!
# Verification of the 24-game solver (src/twenty_four_game.py)

Shallow embedding of the search/evaluation core of `class TwentyFourGame`.

Modelling conventions, fixed once for the whole development:

* Numbers are exact.  `evaluate_expression` evaluates every expression that
  contains a `/` through Python `Fraction` arithmetic (exact rationals) and
  expressions without `/` through integer arithmetic (also exact); the only
  float step is the final conversion, whose rounding error (< 1e-12 for the
  magnitudes reachable here) never crosses the `1e-10` acceptance threshold,
  so the evaluation is embedded directly in `ℚ`.
* A `ZeroDivisionError` raised during evaluation is caught inside
  `evaluate_expression` and turned into the value `inf`, which fails the
  acceptance test, and the bare `except: continue` in `find_all_solutions`
  drops any other raising combination; both outcomes (combination dropped,
  search continues) are embedded as the evaluation result `none`.
* `find_all_solutions` reads the operator list from
  `self.available_operators[self.difficulty]` and the target from
  `self.target` (always `24`); the embedding passes the operator list as an
  explicit argument and fixes the target to the constant `target`.
* The display string built on lines 121-127 of the source (the pattern
  template filled with the permuted numbers and operators, each operator
  character then replaced by its padded display glyph) is embedded as the
  token list `displayCombo`: tokens are in bijection with the rendered
  strings (each operator has a distinct glyph), so deduplication by token
  list coincides with the source's deduplication by string.
* `itertools.permutations` of a 4-tuple yields 24 tuples (duplicated values
  are not collapsed); `List.permutations` likewise yields `4! = 24` lists.
  The two enumeration orders differ, but no theorem below depends on the
  enumeration order; the source returns `list(<set>)`, whose order is a
  property of CPython's hash tables and is not modelled.
-/

namespace TwentyFour

/-- The four arithmetic operator tokens of the game
(`'+', '-', '*', '/'` in the source). -/
inductive Op
  | add
  | sub
  | mul
  | div
deriving DecidableEq, Inhabited

/-- Exact application of one binary operator, as performed by the
`Fraction` evaluation of `evaluate_with_fractions`.  Division by zero is
the state in which the source raises `ZeroDivisionError`, caught in
`evaluate_expression`; `none` embeds that caught state. -/
def applyOp : Op → ℚ → ℚ → Option ℚ
  | Op.add, x, y => some (x + y)
  | Op.sub, x, y => some (x - y)
  | Op.mul, x, y => some (x * y)
  | Op.div, x, y => if y = 0 then none else some (x / y)

/-- Lifting of `applyOp` to possibly-undefined operands: an undefined operand makes
the whole result undefined (the exception propagates out of the
subexpression in the source). -/
def applyOpO (o : Op) : Option ℚ → Option ℚ → Option ℚ
  | some x, some y => applyOp o x y
  | _, _ => none

/-- Whether Python gives the operator the higher precedence level
(`*` and `/` bind tighter than `+` and `-`). -/
def isMulDiv : Op → Bool
  | Op.mul => true
  | Op.div => true
  | _ => false

/-- The five fully parenthesised shapes of the `patterns` list
(indices 0-4, source lines 111-115):
0: `(a o0 b) o1 (c o2 d)`, 1: `((a o0 b) o1 c) o2 d`,
2: `(a o0 (b o1 c)) o2 d`, 3: `a o0 ((b o1 c) o2 d)`,
4: `a o0 (b o1 (c o2 d))`.  Any other index evaluates nothing. -/
def evalShape : ℕ → ℚ → ℚ → ℚ → ℚ → Op → Op → Op → Option ℚ
  | 0, a, b, c, d, o0, o1, o2 => applyOpO o1 (applyOp o0 a b) (applyOp o2 c d)
  | 1, a, b, c, d, o0, o1, o2 =>
      applyOpO o2 (applyOpO o1 (applyOp o0 a b) (some c)) (some d)
  | 2, a, b, c, d, o0, o1, o2 =>
      applyOpO o2 (applyOpO o0 (some a) (applyOp o1 b c)) (some d)
  | 3, a, b, c, d, o0, o1, o2 =>
      applyOpO o0 (some a) (applyOpO o2 (applyOp o1 b c) (some d))
  | 4, a, b, c, d, o0, o1, o2 =>
      applyOpO o0 (some a) (applyOpO o1 (some b) (applyOp o2 c d))
  | _, _, _, _, _, _, _, _ => none

/-- Evaluation of the unparenthesised pattern `a o0 b o1 c o2 d`
(index 5, source line 116).  Python `eval` parses it with standard
precedence: `*`/`/` before `+`/`-`, equal levels associating left.  For a
fixed precedence profile of the three operators the parse tree is one of
the five shapes; the eight profiles give:
`LLL -> ((ab)c)d`, `HLL -> ((ab)c)d`, `LHL -> (a(bc))d`, `LLH -> (ab)(cd)`,
`HHL -> ((ab)c)d`, `HLH -> (ab)(cd)`, `LHH -> a((bc)d)`, `HHH -> ((ab)c)d`
(`H` = `*`/`/`, `L` = `+`/`-`). -/
def evalFlat (a b c d : ℚ) (o0 o1 o2 : Op) : Option ℚ :=
  match isMulDiv o0, isMulDiv o1, isMulDiv o2 with
  | false, false, false => evalShape 1 a b c d o0 o1 o2
  | true,  false, false => evalShape 1 a b c d o0 o1 o2
  | false, true,  false => evalShape 2 a b c d o0 o1 o2
  | false, false, true  => evalShape 0 a b c d o0 o1 o2
  | true,  true,  false => evalShape 1 a b c d o0 o1 o2
  | true,  false, true  => evalShape 0 a b c d o0 o1 o2
  | false, true,  true  => evalShape 3 a b c d o0 o1 o2
  | true,  true,  true  => evalShape 1 a b c d o0 o1 o2

/-- Evaluation function of the pattern with index `k` in the `patterns`
list: indices 0-4 are the parenthesised shapes, index 5 the
unparenthesised one, and no further pattern exists. -/
def evalPattern (k : ℕ) (a b c d : ℚ) (o0 o1 o2 : Op) : Option ℚ :=
  if k = 5 then evalFlat a b c d o0 o1 o2 else evalShape k a b c d o0 o1 o2

/-- One candidate of the search: a permutation of the numbers, an ordered
operator triple, and a pattern index. -/
abbrev Combo := List ℤ × (Op × Op × Op) × ℕ

/-- The field `self.target`, set to `24` in `__init__` and never reassigned. -/
def target : ℚ := 24

/-- The literal `1e-10` of the acceptance test
`abs(result - self.target) < 1e-10` on source line 123. -/
def eps : ℚ := 1 / 10 ^ 10

/-- Evaluate one combination exactly.  A permutation that does not have
exactly four entries makes `pattern.format` (line 121) raise, which the
bare `except` swallows, dropping the combination: embedded as `none`. -/
def evalCombo : Combo → Option ℚ
  | (nums, (o0, o1, o2), k) =>
    match nums with
    | [a, b, c, d] => evalPattern k (a : ℚ) (b : ℚ) (c : ℚ) (d : ℚ) o0 o1 o2
    | _ => none

/-- All ordered operator triples, `itertools.product(operators, repeat=3)`. -/
def opTriples (ops : List Op) : List (Op × Op × Op) :=
  ops.flatMap fun o0 => ops.flatMap fun o1 => ops.map fun o2 => (o0, o1, o2)

/-- The full enumeration of `find_all_solutions`: every permutation of the
numbers, times every operator triple, times the six pattern indices. -/
def combos (numbers : List ℤ) (ops : List Op) : List Combo :=
  numbers.permutations.flatMap fun p =>
    (opTriples ops).flatMap fun t => (List.range 6).map fun k => (p, t, k)

/-- Display tokens.  `osym o` stands for the padded display glyph that the
replacement loop on lines 126-127 substitutes for the operator character
`o`; the four glyphs are pairwise distinct, so token lists are in
bijection with the display strings of the source. -/
inductive DTok
  | lp
  | rp
  | num (n : ℤ)
  | osym (o : Op)
deriving DecidableEq, Inhabited

/-- The display rendering of pattern `k` (the `patterns` template of lines
111-116 filled with the permuted numbers and the operator glyphs). -/
def displayPattern : ℕ → ℤ → ℤ → ℤ → ℤ → Op → Op → Op → List DTok
  | 0, a, b, c, d, o0, o1, o2 =>
      [DTok.lp, DTok.num a, DTok.osym o0, DTok.num b, DTok.rp, DTok.osym o1,
       DTok.lp, DTok.num c, DTok.osym o2, DTok.num d, DTok.rp]
  | 1, a, b, c, d, o0, o1, o2 =>
      [DTok.lp, DTok.lp, DTok.num a, DTok.osym o0, DTok.num b, DTok.rp,
       DTok.osym o1, DTok.num c, DTok.rp, DTok.osym o2, DTok.num d]
  | 2, a, b, c, d, o0, o1, o2 =>
      [DTok.lp, DTok.num a, DTok.osym o0, DTok.lp, DTok.num b, DTok.osym o1,
       DTok.num c, DTok.rp, DTok.rp, DTok.osym o2, DTok.num d]
  | 3, a, b, c, d, o0, o1, o2 =>
      [DTok.num a, DTok.osym o0, DTok.lp, DTok.lp, DTok.num b, DTok.osym o1,
       DTok.num c, DTok.rp, DTok.osym o2, DTok.num d, DTok.rp]
  | 4, a, b, c, d, o0, o1, o2 =>
      [DTok.num a, DTok.osym o0, DTok.lp, DTok.num b, DTok.osym o1, DTok.lp,
       DTok.num c, DTok.osym o2, DTok.num d, DTok.rp, DTok.rp]
  | 5, a, b, c, d, o0, o1, o2 =>
      [DTok.num a, DTok.osym o0, DTok.num b, DTok.osym o1, DTok.num c,
       DTok.osym o2, DTok.num d]
  | _, _, _, _, _, _, _, _ => []

/-- The display rendering of one combination. -/
def displayCombo : Combo → List DTok
  | (nums, (o0, o1, o2), k) =>
    match nums with
    | [a, b, c, d] => displayPattern k a b c d o0 o1 o2
    | _ => []

/-- The step `solutions.add(display_expr)`: a Python `set` keeps one copy of each
string.  The embedding keeps the first copy in insertion order (the
membership of the final collection is what the theorems below use; the
iteration order of the CPython set is not modelled). -/
def insertSol (acc : List (List DTok)) (s : List DTok) : List (List DTok) :=
  if s ∈ acc then acc else acc ++ [s]

/-- One step of the search loop, lines 119-130: evaluate the combination,
and if the result is defined and passes `abs(result - target) < 1e-10`,
add its display rendering to the solution set. -/
def solStep (acc : List (List DTok)) (c : Combo) : List (List DTok) :=
  match evalCombo c with
  | some v => if |v - target| < eps then insertSol acc (displayCombo c) else acc
  | none => acc

/-- The solver `find_all_solutions(numbers)` with the active difficulty's operator
list passed explicitly. -/
def find_all_solutions (numbers : List ℤ) (operators : List Op) :
    List (List DTok) :=
  (combos numbers operators).foldl solStep []

/-- The quotient-then-sum loop of `has_trivial_solution` (lines 85-93):
walk the numbers; `24 % num` with `num = 0` raises `ZeroDivisionError`
(embedded as `none`); a divisor of 24 whose quotient is in the full list
returns `True`; after the loop, `sum(numbers) == 24` decides the result.
`full` is the complete list, used for the membership test and the sum. -/
def trivLoop (full : List ℤ) : List ℤ → Option Bool
  | [] => some (decide (full.sum = 24))
  | n :: rest =>
    if n = 0 then none
    else if 24 % n = 0 ∧ (24 / n) ∈ full then some true
    else trivLoop full rest

/-- The classifier `has_trivial_solution(numbers)` (source lines 82-93). -/
def has_trivial_solution (numbers : List ℤ) : Option Bool :=
  trivLoop numbers numbers

/-- Modelled from the spec: the spec's triviality characterisation
(§4.6): some operand divides the target exactly with the quotient also
present, or the four operands sum to the target. -/
def trivialSpec (numbers : List ℤ) : Prop :=
  (∃ n ∈ numbers, n ∣ 24 ∧ (24 / n) ∈ numbers) ∨ numbers.sum = 24

/-- A rational is `Bnd`-bounded by `N, D` when it can be written as a
fraction of integers with numerator magnitude at most `N` and a positive
denominator at most `D`.  This tracks, through the evaluation of a
combination, how fine the reachable rationals can be: a value within
`1/D` of the target but distinct from it is then impossible. -/
def Bnd (x : ℚ) (N D : ℕ) : Prop :=
  ∃ n d : ℤ, 0 < d ∧ x = (n : ℚ) / (d : ℚ) ∧ n.natAbs ≤ N ∧ d ≤ (D : ℤ)

/-- Game state, the fields assigned in `__init__` (lines 33-48).
`best_time` starts as `float('inf')`, embedded as `none`; the constant
dictionaries `available_operators` and `operator_symbols` are never
mutated and are embedded as the global tables below. -/
structure TwentyFourGame where
  target : ℤ
  current_numbers : List ℤ
  start_time : ℚ
  games_played : ℕ
  games_solved : ℕ
  total_time : ℚ
  best_time : Option ℚ
  difficulty : String
deriving DecidableEq

/-- The state built by `__init__`. -/
def initGame : TwentyFourGame :=
  { target := 24
    current_numbers := []
    start_time := 0
    games_played := 0
    games_solved := 0
    total_time := 0
    best_time := none
    difficulty := "normal" }

/-- The `self.available_operators` dictionary (lines 42-47). -/
def available_operators : List (String × List Op) :=
  [("easy", [Op.add, Op.sub]),
   ("normal", [Op.add, Op.sub, Op.mul, Op.div]),
   ("hard", [Op.add, Op.sub, Op.mul, Op.div]),
   ("expert", [Op.add, Op.sub, Op.mul, Op.div])]

/-- Python `str.lower()` for the ASCII strings used as difficulty names. -/
def strLower (s : String) : String :=
  ⟨s.data.map Char.toLower⟩

/-- The method `set_difficulty` (lines 300-305): lowercase the argument; if it is a
key of `available_operators`, store it and return `True`, else return
`False` leaving the state untouched. -/
def set_difficulty (g : TwentyFourGame) (difficulty : String) :
    TwentyFourGame × Bool :=
  if (available_operators.lookup (strLower difficulty)).isSome then
    ({ g with difficulty := strLower difficulty }, true)
  else
    (g, false)

/-! ## Helper lemmas -/

lemma applyOpO_some {o : Op} {mx my : Option ℚ} {v : ℚ}
    (h : applyOpO o mx my = some v) :
    ∃ x y, mx = some x ∧ my = some y ∧ applyOp o x y = some v := by
  cases mx with
  | none => simp [applyOpO] at h
  | some x =>
    cases my with
    | none => simp [applyOpO] at h
    | some y => exact ⟨x, y, rfl, rfl, h⟩

lemma Bnd_mono {x : ℚ} {N D N' D' : ℕ} (h : Bnd x N D) (hN : N ≤ N')
    (hD : D ≤ D') : Bnd x N' D' := by
  obtain ⟨n, d, hd, hx, hn, hdD⟩ := h
  exact ⟨n, d, hd, hx, hn.trans hN, hdD.trans (by exact_mod_cast hD)⟩

lemma Bnd_int {m : ℤ} (h : m.natAbs ≤ 9) : Bnd (m : ℚ) 9 1 :=
  ⟨m, 1, one_pos, by simp, h, le_refl 1⟩

lemma Bnd_applyOp {o : Op} {x y z : ℚ} {N1 D1 N2 D2 : ℕ}
    (hx : Bnd x N1 D1) (hy : Bnd y N2 D2) (h : applyOp o x y = some z) :
    Bnd z (N1 * D2 + N2 * D1 + N1 * N2) (D1 * D2 + D1 * N2) := by
  obtain ⟨n1, d1, hd1, hx1, hn1, hD1⟩ := hx
  obtain ⟨n2, d2, hd2, hx2, hn2, hD2⟩ := hy
  have hd1q : (d1 : ℚ) ≠ 0 := by exact_mod_cast hd1.ne'
  have hd2q : (d2 : ℚ) ≠ 0 := by exact_mod_cast hd2.ne'
  have hb1 : d1.natAbs ≤ D1 := by omega
  have hb2 : d2.natAbs ≤ D2 := by omega
  have hden : d1 * d2 ≤ ((D1 * D2 + D1 * N2 : ℕ) : ℤ) := by
    have h1 : d1 * d2 ≤ (D1 : ℤ) * (D2 : ℤ) :=
      mul_le_mul hD1 hD2 hd2.le (by positivity)
    have h2 : (0:ℤ) ≤ (D1 : ℤ) * (N2 : ℤ) := by positivity
    push_cast
    linarith
  cases o with
  | add =>
    have hz : z = x + y := by simpa [applyOp] using h.symm
    refine ⟨n1 * d2 + n2 * d1, d1 * d2, mul_pos hd1 hd2, ?_, ?_, hden⟩
    · rw [hz, hx1, hx2]
      push_cast
      rw [div_add_div _ _ hd1q hd2q]
      ring
    · calc (n1 * d2 + n2 * d1).natAbs
          ≤ (n1 * d2).natAbs + (n2 * d1).natAbs := Int.natAbs_add_le _ _
        _ = n1.natAbs * d2.natAbs + n2.natAbs * d1.natAbs := by
            rw [Int.natAbs_mul, Int.natAbs_mul]
        _ ≤ N1 * D2 + N2 * D1 :=
            Nat.add_le_add (Nat.mul_le_mul hn1 hb2) (Nat.mul_le_mul hn2 hb1)
        _ ≤ N1 * D2 + N2 * D1 + N1 * N2 := Nat.le_add_right _ _
  | sub =>
    have hz : z = x - y := by simpa [applyOp] using h.symm
    refine ⟨n1 * d2 - n2 * d1, d1 * d2, mul_pos hd1 hd2, ?_, ?_, hden⟩
    · rw [hz, hx1, hx2]
      push_cast
      rw [div_sub_div _ _ hd1q hd2q]
      ring
    · calc (n1 * d2 - n2 * d1).natAbs
          ≤ (n1 * d2).natAbs + (n2 * d1).natAbs := Int.natAbs_sub_le _ _
        _ = n1.natAbs * d2.natAbs + n2.natAbs * d1.natAbs := by
            rw [Int.natAbs_mul, Int.natAbs_mul]
        _ ≤ N1 * D2 + N2 * D1 :=
            Nat.add_le_add (Nat.mul_le_mul hn1 hb2) (Nat.mul_le_mul hn2 hb1)
        _ ≤ N1 * D2 + N2 * D1 + N1 * N2 := Nat.le_add_right _ _
  | mul =>
    have hz : z = x * y := by simpa [applyOp] using h.symm
    refine ⟨n1 * n2, d1 * d2, mul_pos hd1 hd2, ?_, ?_, hden⟩
    · rw [hz, hx1, hx2]
      push_cast
      rw [div_mul_div_comm]
    · calc (n1 * n2).natAbs = n1.natAbs * n2.natAbs := Int.natAbs_mul _ _
        _ ≤ N1 * N2 := Nat.mul_le_mul hn1 hn2
        _ ≤ N1 * D2 + N2 * D1 + N1 * N2 := Nat.le_add_left _ _
  | div =>
    have hy0 : y ≠ 0 := by
      intro h0
      simp [applyOp, h0] at h
    have hz : z = x / y := by
      have h' := h
      simp only [applyOp, if_neg hy0] at h'
      exact (Option.some.inj h').symm
    have hn2z : n2 ≠ 0 := by
      intro h0
      apply hy0
      rw [hx2, h0]
      simp
    have hnum : (n1 * d2).natAbs ≤ N1 * D2 + N2 * D1 + N1 * N2 := by
      calc (n1 * d2).natAbs = n1.natAbs * d2.natAbs := Int.natAbs_mul _ _
        _ ≤ N1 * D2 := Nat.mul_le_mul hn1 hb2
        _ ≤ N1 * D2 + (N2 * D1 + N1 * N2) := Nat.le_add_right _ _
        _ = N1 * D2 + N2 * D1 + N1 * N2 := by ring
    rcases lt_trichotomy n2 0 with hneg | hzero | hpos
    · refine ⟨-(n1 * d2), d1 * (-n2), mul_pos hd1 (by omega), ?_, ?_, ?_⟩
      · rw [hz, hx1, hx2]
        have hn2q : (n2 : ℚ) ≠ 0 := by exact_mod_cast hn2z
        push_cast
        field_simp
      · rw [Int.natAbs_neg]
        exact hnum
      · have h1 : d1 * (-n2) ≤ (D1 : ℤ) * (N2 : ℤ) := by
          have hn2le : -n2 ≤ (N2 : ℤ) := by omega
          exact mul_le_mul hD1 hn2le (by omega) (by positivity)
        have h2 : (0:ℤ) ≤ (D1 : ℤ) * (D2 : ℤ) := by positivity
        push_cast
        linarith
    · exact absurd hzero hn2z
    · refine ⟨n1 * d2, d1 * n2, mul_pos hd1 hpos, ?_, hnum, ?_⟩
      · rw [hz, hx1, hx2]
        have hn2q : (n2 : ℚ) ≠ 0 := by exact_mod_cast hn2z
        push_cast
        field_simp
      · have h1 : d1 * n2 ≤ (D1 : ℤ) * (N2 : ℤ) := by
          have hn2le : n2 ≤ (N2 : ℤ) := by omega
          exact mul_le_mul hD1 hn2le hpos.le (by positivity)
        have h2 : (0:ℤ) ≤ (D1 : ℤ) * (D2 : ℤ) := by positivity
        push_cast
        linarith

lemma Bnd_opA {o : Op} {x y z : ℚ} (hx : Bnd x 9 1) (hy : Bnd y 9 1)
    (h : applyOp o x y = some z) : Bnd z 99 10 := by
  have hb := Bnd_applyOp hx hy h
  norm_num at hb
  exact hb

lemma Bnd_opB {o : Op} {x y z : ℚ} (hx : Bnd x 99 10) (hy : Bnd y 99 10)
    (h : applyOp o x y = some z) : Bnd z 11781 1090 := by
  have hb := Bnd_applyOp hx hy h
  norm_num at hb
  exact hb

lemma Bnd_opC {o : Op} {x y z : ℚ} (hx : Bnd x 11781 1090)
    (hy : Bnd y 11781 1090) (h : applyOp o x y = some z) :
    Bnd z 164474541 14029390 := by
  have hb := Bnd_applyOp hx hy h
  norm_num at hb
  exact hb

lemma evalShape_bnd {k : ℕ} {a b c d v : ℚ} {o0 o1 o2 : Op}
    (ha : Bnd a 9 1) (hb : Bnd b 9 1) (hc : Bnd c 9 1) (hd : Bnd d 9 1)
    (h : evalShape k a b c d o0 o1 o2 = some v) :
    Bnd v 164474541 14029390 := by
  have lift01 : ∀ {x : ℚ}, Bnd x 9 1 → Bnd x 99 10 := fun hx =>
    Bnd_mono hx (by norm_num) (by norm_num)
  have lift12 : ∀ {x : ℚ}, Bnd x 99 10 → Bnd x 11781 1090 := fun hx =>
    Bnd_mono hx (by norm_num) (by norm_num)
  rcases k with _ | _ | _ | _ | _ | k
  · simp only [evalShape] at h
    obtain ⟨x, y, hx, hy, hroot⟩ := applyOpO_some h
    exact Bnd_opC (lift12 (Bnd_opA ha hb hx)) (lift12 (Bnd_opA hc hd hy)) hroot
  · simp only [evalShape] at h
    obtain ⟨x2, d', hx2, hd', hroot⟩ := applyOpO_some h
    obtain ⟨x1, c', h1, hc', hmid⟩ := applyOpO_some hx2
    obtain rfl : c = c' := Option.some.inj hc'
    obtain rfl : d = d' := Option.some.inj hd'
    exact Bnd_opC (Bnd_opB (Bnd_opA ha hb h1) (lift01 hc) hmid)
      (lift12 (lift01 hd)) hroot
  · simp only [evalShape] at h
    obtain ⟨x2, d', hx2, hd', hroot⟩ := applyOpO_some h
    obtain ⟨a', x1, ha', h1, hmid⟩ := applyOpO_some hx2
    obtain rfl : a = a' := Option.some.inj ha'
    obtain rfl : d = d' := Option.some.inj hd'
    exact Bnd_opC (Bnd_opB (lift01 ha) (Bnd_opA hb hc h1) hmid)
      (lift12 (lift01 hd)) hroot
  · simp only [evalShape] at h
    obtain ⟨a', x2, ha', hx2, hroot⟩ := applyOpO_some h
    obtain ⟨x1, d', h1, hd', hmid⟩ := applyOpO_some hx2
    obtain rfl : a = a' := Option.some.inj ha'
    obtain rfl : d = d' := Option.some.inj hd'
    exact Bnd_opC (lift12 (lift01 ha))
      (Bnd_opB (Bnd_opA hb hc h1) (lift01 hd) hmid) hroot
  · simp only [evalShape] at h
    obtain ⟨a', x2, ha', hx2, hroot⟩ := applyOpO_some h
    obtain ⟨b', x1, hb', h1, hmid⟩ := applyOpO_some hx2
    obtain rfl : a = a' := Option.some.inj ha'
    obtain rfl : b = b' := Option.some.inj hb'
    exact Bnd_opC (lift12 (lift01 ha))
      (Bnd_opB (lift01 hb) (Bnd_opA hc hd h1) hmid) hroot
  · exact Option.noConfusion (by simpa only [evalShape] using h)

lemma evalFlat_eq_shape (a b c d : ℚ) (o0 o1 o2 : Op) :
    ∃ j, j < 5 ∧ evalFlat a b c d o0 o1 o2 = evalShape j a b c d o0 o1 o2 := by
  cases h0 : isMulDiv o0 <;> cases h1 : isMulDiv o1 <;> cases h2 : isMulDiv o2 <;>
    simp only [evalFlat, h0, h1, h2] <;>
    first
      | exact ⟨0, by omega, rfl⟩
      | exact ⟨1, by omega, rfl⟩
      | exact ⟨2, by omega, rfl⟩
      | exact ⟨3, by omega, rfl⟩

lemma evalPattern_bnd {k : ℕ} {a b c d v : ℚ} {o0 o1 o2 : Op}
    (ha : Bnd a 9 1) (hb : Bnd b 9 1) (hc : Bnd c 9 1) (hd : Bnd d 9 1)
    (h : evalPattern k a b c d o0 o1 o2 = some v) :
    Bnd v 164474541 14029390 := by
  unfold evalPattern at h
  by_cases h5 : k = 5
  · rw [if_pos h5] at h
    obtain ⟨j, _, he⟩ := evalFlat_eq_shape a b c d o0 o1 o2
    rw [he] at h
    exact evalShape_bnd ha hb hc hd h
  · rw [if_neg h5] at h
    exact evalShape_bnd ha hb hc hd h

lemma Bnd_ne_target {v : ℚ} (h : Bnd v 164474541 14029390)
    (hne : v ≠ target) : eps ≤ |v - target| := by
  obtain ⟨n, d, hd, hv, hn, hD⟩ := h
  have hdq : (0 : ℚ) < (d : ℚ) := by exact_mod_cast hd
  have hsub : v - target = ((n - 24 * d : ℤ) : ℚ) / (d : ℚ) := by
    rw [hv, target]
    push_cast
    field_simp
    ring
  have hnz : n - 24 * d ≠ 0 := by
    intro h0
    apply hne
    have hn24 : (n : ℚ) = 24 * (d : ℚ) := by exact_mod_cast sub_eq_zero.mp h0
    rw [hv, hn24, target]
    field_simp
  have h1 : (1 : ℚ) ≤ |((n - 24 * d : ℤ) : ℚ)| := by
    rw [← Int.cast_abs]
    exact_mod_cast Int.one_le_abs hnz
  calc eps ≤ 1 / (d : ℚ) := by
        rw [eps]
        apply one_div_le_one_div_of_le hdq
        calc (d : ℚ) ≤ 14029390 := by exact_mod_cast hD
          _ ≤ 10 ^ 10 := by norm_num
    _ ≤ |((n - 24 * d : ℤ) : ℚ)| / (d : ℚ) := by
        gcongr
    _ = |v - target| := by
        rw [hsub, abs_div, abs_of_pos hdq]

lemma mem_insertSol {acc : List (List DTok)} {s x : List DTok} :
    x ∈ insertSol acc s ↔ x ∈ acc ∨ x = s := by
  unfold insertSol
  split_ifs with h
  · constructor
    · exact Or.inl
    · rintro (hx | rfl)
      · exact hx
      · exact h
  · simp

lemma solStep_some {acc : List (List DTok)} {c : Combo} {v : ℚ}
    (hev : evalCombo c = some v) :
    solStep acc c =
      if |v - target| < eps then insertSol acc (displayCombo c) else acc := by
  unfold solStep
  rw [hev]

lemma solStep_none {acc : List (List DTok)} {c : Combo}
    (hev : evalCombo c = none) : solStep acc c = acc := by
  unfold solStep
  rw [hev]

lemma mem_solStep {acc : List (List DTok)} {c : Combo} {x : List DTok} :
    x ∈ solStep acc c ↔
      x ∈ acc ∨ ∃ v, evalCombo c = some v ∧ |v - target| < eps ∧
        x = displayCombo c := by
  cases hev : evalCombo c with
  | none => simp [solStep_none hev]
  | some v =>
    rw [solStep_some hev]
    split_ifs with hp
    · simp [mem_insertSol, hp, hev]
    · simp [hp, hev]

lemma mem_foldl_solStep (l : List Combo) :
    ∀ (acc : List (List DTok)) (x : List DTok),
      x ∈ l.foldl solStep acc ↔
        x ∈ acc ∨ ∃ c ∈ l, ∃ v, evalCombo c = some v ∧ |v - target| < eps ∧
          x = displayCombo c := by
  induction l with
  | nil => simp
  | cons c l ih =>
    intro acc x
    rw [List.foldl_cons, ih, mem_solStep]
    constructor
    · rintro ((hx | ⟨v, hv, hp, rfl⟩) | ⟨c', hc', v, hv, hp, rfl⟩)
      · exact Or.inl hx
      · exact Or.inr ⟨c, List.mem_cons_self c l, v, hv, hp, rfl⟩
      · exact Or.inr ⟨c', List.mem_cons_of_mem c hc', v, hv, hp, rfl⟩
    · rintro (hx | ⟨c', hc', v, hv, hp, rfl⟩)
      · exact Or.inl (Or.inl hx)
      · rcases List.mem_cons.mp hc' with rfl | hc'
        · exact Or.inl (Or.inr ⟨v, hv, hp, rfl⟩)
        · exact Or.inr ⟨c', hc', v, hv, hp, rfl⟩

lemma mem_find_all_solutions {numbers : List ℤ} {ops : List Op}
    {x : List DTok} :
    x ∈ find_all_solutions numbers ops ↔
      ∃ c ∈ combos numbers ops, ∃ v, evalCombo c = some v ∧
        |v - target| < eps ∧ x = displayCombo c := by
  unfold find_all_solutions
  rw [mem_foldl_solStep]
  simp

lemma foldl_solStep_none {l : List Combo} (h : ∀ c ∈ l, evalCombo c = none) :
    ∀ acc, l.foldl solStep acc = acc := by
  induction l with
  | nil => intro acc; rfl
  | cons c l ih =>
    intro acc
    rw [List.foldl_cons]
    rw [solStep_none (h c (List.mem_cons_self c l))]
    exact ih (fun c' hc' => h c' (List.mem_cons_of_mem c hc')) acc

lemma evalCombo_none_of_len {p : List ℤ} (h : p.length ≠ 4)
    (t : Op × Op × Op) (k : ℕ) : evalCombo (p, t, k) = none := by
  obtain ⟨o0, o1, o2⟩ := t
  rcases p with _ | ⟨a, p⟩
  · rfl
  rcases p with _ | ⟨b, p⟩
  · rfl
  rcases p with _ | ⟨c, p⟩
  · rfl
  rcases p with _ | ⟨d, p⟩
  · rfl
  rcases p with _ | ⟨e, p⟩
  · exact absurd rfl h
  · rfl

lemma mem_combos {numbers : List ℤ} {ops : List Op} {p : List ℤ}
    {t : Op × Op × Op} {k : ℕ} :
    (p, t, k) ∈ combos numbers ops ↔
      p ∈ numbers.permutations ∧ t ∈ opTriples ops ∧ k < 6 := by
  unfold combos
  simp only [List.mem_flatMap, List.mem_map, List.mem_range, Prod.mk.injEq]
  constructor
  · rintro ⟨p', hp', t', ht', k', hk', rfl, rfl, rfl⟩
    exact ⟨hp', ht', hk'⟩
  · rintro ⟨hp, ht, hk⟩
    exact ⟨p, hp, t, ht, k, hk, rfl, rfl, rfl⟩

lemma opTriples_length (ops : List Op) :
    (opTriples ops).length = ops.length ^ 3 := by
  unfold opTriples
  simp [List.length_flatMap, Function.comp_def, List.map_const',
    List.sum_replicate, smul_eq_mul]
  ring

lemma combos_length (numbers : List ℤ) (ops : List Op) :
    (combos numbers ops).length =
      Nat.factorial numbers.length * (ops.length ^ 3 * 6) := by
  unfold combos
  simp [List.length_flatMap, Function.comp_def, opTriples_length,
    List.map_const', List.sum_replicate, smul_eq_mul,
    List.length_permutations]

lemma trivLoop_sum {full : List ℤ} (hs : full.sum = 24) :
    ∀ l, (∀ n ∈ l, n ≠ 0) → trivLoop full l = some true := by
  intro l
  induction l with
  | nil => intro _; simp [trivLoop, hs]
  | cons n rest ih =>
    intro h
    unfold trivLoop
    rw [if_neg (h n (List.mem_cons_self n rest))]
    split_ifs with hc
    · rfl
    · exact ih fun m hm => h m (List.mem_cons_of_mem n hm)

lemma trivLoop_isSome {full : List ℤ} :
    ∀ l, (∀ n ∈ l, n ≠ 0) → ∃ b, trivLoop full l = some b := by
  intro l
  induction l with
  | nil => intro _; exact ⟨_, rfl⟩
  | cons n rest ih =>
    intro h
    unfold trivLoop
    rw [if_neg (h n (List.mem_cons_self n rest))]
    split_ifs with hc
    · exact ⟨true, rfl⟩
    · exact ih fun m hm => h m (List.mem_cons_of_mem n hm)

lemma trivLoop_true_iff {full : List ℤ} :
    ∀ l, (∀ n ∈ l, n ≠ 0) →
      (trivLoop full l = some true ↔
        (∃ n ∈ l, 24 % n = 0 ∧ (24 / n) ∈ full) ∨ full.sum = 24) := by
  intro l
  induction l with
  | nil =>
    intro _
    simp [trivLoop]
  | cons n rest ih =>
    intro h
    unfold trivLoop
    rw [if_neg (h n (List.mem_cons_self n rest))]
    split_ifs with hc
    · simp only [true_iff]
      exact Or.inl ⟨n, List.mem_cons_self n rest, hc⟩
    · rw [ih fun m hm => h m (List.mem_cons_of_mem n hm)]
      constructor
      · rintro (⟨m, hm, hmc⟩ | hs)
        · exact Or.inl ⟨m, List.mem_cons_of_mem n hm, hmc⟩
        · exact Or.inr hs
      · rintro (⟨m, hm, hmc⟩ | hs)
        · rcases List.mem_cons.mp hm with rfl | hm
          · exact absurd hmc hc
          · exact Or.inl ⟨m, hm, hmc⟩
        · exact Or.inr hs

lemma trivLoop_zero {full : List ℤ} :
    ∀ l1 l2, (∀ n ∈ l1, n ≠ 0 ∧ ¬(24 % n = 0 ∧ (24 / n) ∈ full)) →
      trivLoop full (l1 ++ 0 :: l2) = none := by
  intro l1
  induction l1 with
  | nil =>
    intro l2 _
    simp [trivLoop]
  | cons n l1 ih =>
    intro l2 h
    have hn := h n (List.mem_cons_self n l1)
    rw [List.cons_append]
    unfold trivLoop
    rw [if_neg hn.1, if_neg hn.2]
    exact ih l2 fun m hm => h m (List.mem_cons_of_mem n hm)

/-! ## Claim theorems -/

/-- C1: for every Operand Set within the spec's range (four integers, each
in [1,9]) and any allowed-operator subset, a combination is kept by
`find_all_solutions` exactly when its evaluated value equals the target
exactly: on this domain the source's `abs(result - target) < 1e-10` test
provably coincides with exact rational equality to 24, because every value
reachable from such operands is a fraction with denominator at most
14029390, so a non-24 value differs from 24 by at least
1/14029390 > 1e-10. -/
theorem c1_kept_iff_exact (numbers : List ℤ) (ops : List Op) (c : Combo)
    (v : ℚ) (hrange : ∀ n ∈ numbers, 1 ≤ n ∧ n ≤ 9)
    (hc : c ∈ combos numbers ops) (hv : evalCombo c = some v) :
    |v - target| < eps ↔ v = target := by
  constructor
  · intro hpass
    by_contra hne
    obtain ⟨p, ⟨o0, o1, o2⟩, k⟩ := c
    obtain ⟨hp, -, -⟩ := mem_combos.mp hc
    have hperm : p.Perm numbers := List.mem_permutations.mp hp
    rcases p with - | ⟨a, p⟩
    · simp [evalCombo] at hv
    rcases p with - | ⟨b, p⟩
    · simp [evalCombo] at hv
    rcases p with - | ⟨x3, p⟩
    · simp [evalCombo] at hv
    rcases p with - | ⟨x4, p⟩
    · simp [evalCombo] at hv
    rcases p with - | ⟨e, p⟩
    · have hmem : ∀ m ∈ [a, b, x3, x4], 1 ≤ m ∧ m ≤ 9 := fun m hm =>
        hrange m (hperm.subset hm)
      have hev : evalPattern k (a : ℚ) (b : ℚ) (x3 : ℚ) (x4 : ℚ) o0 o1 o2 =
          some v := hv
      have ha := hmem a (by simp)
      have hb := hmem b (by simp)
      have h3 := hmem x3 (by simp)
      have h4 := hmem x4 (by simp)
      have hbd := evalPattern_bnd (Bnd_int (by omega)) (Bnd_int (by omega))
        (Bnd_int (by omega)) (Bnd_int (by omega)) hev
      exact absurd hpass (not_lt.mpr (Bnd_ne_target hbd hne))
    · simp [evalCombo] at hv
  · intro h
    rw [h]
    simp only [sub_self, abs_zero]
    rw [eps]
    norm_num

/-- Witness for C1: the combination `((6+6)+6)+6` over the operand set
`[6,6,6,6]` satisfies all hypotheses, and the theorem yields that its
value 24 equals the target. -/
theorem c1_kept_iff_exact_witness : (24 : ℚ) = target := by
  have h := c1_kept_iff_exact [6, 6, 6, 6] [Op.add]
    ([6, 6, 6, 6], (Op.add, Op.add, Op.add), 1) 24 (by decide) (by decide)
    (by norm_num [evalCombo, evalPattern, evalShape, applyOpO, applyOp])
  exact h.mp (by norm_num [target, eps])

/-- C2: every element of the solution set comes from a combination whose
evaluation is defined (so a combination that divides by zero contributes
nothing), every defined combination passing the acceptance test still
reaches the solution set (the search runs to completion, it is not
aborted by an earlier division by zero), and an undefined operand
propagates through any further operation. -/
theorem c2_div_zero_excluded (numbers : List ℤ) (ops : List Op) :
    (∀ x ∈ find_all_solutions numbers ops,
        ∃ c ∈ combos numbers ops, ∃ v, evalCombo c = some v ∧
          |v - target| < eps ∧ x = displayCombo c) ∧
    (∀ c ∈ combos numbers ops, ∀ v, evalCombo c = some v →
        |v - target| < eps →
        displayCombo c ∈ find_all_solutions numbers ops) ∧
    (∀ (o : Op) (my : Option ℚ),
        applyOpO o none my = none ∧ applyOpO o my none = none) := by
  refine ⟨?_, ?_, ?_⟩
  · intro x hx
    exact mem_find_all_solutions.mp hx
  · intro c hc v hv hp
    exact mem_find_all_solutions.mpr ⟨c, hc, v, hv, hp, rfl⟩
  · intro o my
    cases my <;> exact ⟨rfl, rfl⟩

/-- Witness for C2: over `[6,6,6,6]` with operators `[+]`, the passing
combination `(6+6)+(6+6)` appears in the returned solution set. -/
theorem c2_div_zero_excluded_witness :
    displayCombo ([6, 6, 6, 6], (Op.add, Op.add, Op.add), 0) ∈
      find_all_solutions [6, 6, 6, 6] [Op.add] :=
  (c2_div_zero_excluded [6, 6, 6, 6] [Op.add]).2.1
    ([6, 6, 6, 6], (Op.add, Op.add, Op.add), 0) (by decide) 24
    (by norm_num [evalCombo, evalPattern, evalShape, applyOpO, applyOp])
    (by norm_num [target, eps])

/-- C3 counterexample: `has_trivial_solution([3,3,8,8])` returns `True`
(3 divides 24 and the quotient 8 is among the operands), not `False` as
the claim states. -/
theorem c3_counterexample :
    has_trivial_solution [3, 3, 8, 8] = some true ∧
      has_trivial_solution [3, 3, 8, 8] ≠ some false := by
  constructor
  · decide
  · decide

/-- C3 amended: the classifier returns `True` for `[3,3,8,8]` (because
3 divides 24 with quotient 8 present), and returns `True` for every
operand list of nonzero integers summing to 24, such as `[1,2,3,18]`. -/
theorem c3_trivial_amended :
    has_trivial_solution [3, 3, 8, 8] = some true ∧
    ∀ numbers : List ℤ, (∀ n ∈ numbers, n ≠ 0) → numbers.sum = 24 →
      has_trivial_solution numbers = some true := by
  refine ⟨by decide, ?_⟩
  intro numbers h hs
  unfold has_trivial_solution
  exact trivLoop_sum hs numbers h

/-- Witness for C3 amended: the spec's own sum-24 example `[1,2,3,18]`. -/
theorem c3_trivial_amended_witness :
    has_trivial_solution [1, 2, 3, 18] = some true :=
  c3_trivial_amended.2 [1, 2, 3, 18] (by decide) (by decide)

/-- C4: for every operand list of four integers in [1,9],
`has_trivial_solution` returns `True` exactly when some operand divides 24
with the quotient also among the operands, or the operands sum to 24
(the spec's characterisation `trivialSpec`). -/
theorem c4_triviality_characterisation (numbers : List ℤ)
    (_hlen : numbers.length = 4) (hrange : ∀ n ∈ numbers, 1 ≤ n ∧ n ≤ 9) :
    has_trivial_solution numbers = some true ↔ trivialSpec numbers := by
  unfold has_trivial_solution trivialSpec
  have hnz : ∀ n ∈ numbers, n ≠ 0 := fun n hn => by
    have := hrange n hn
    omega
  rw [trivLoop_true_iff numbers hnz]
  simp only [Int.dvd_iff_emod_eq_zero]

/-- Witness for C4 at `[1,2,3,4]`: no operand's quotient is present and
the sum is 10, so the classifier cannot return `True`. -/
theorem c4_triviality_characterisation_witness :
    ¬ has_trivial_solution [1, 2, 3, 4] = some true := fun h =>
  absurd
    ((c4_triviality_characterisation [1, 2, 3, 4] (by decide) (by decide)).mp h)
    (by unfold trivialSpec; decide)

/-- C6 counterexample: with an empty allowed-operator subset the solver
returns the plain empty list — no error is signalled, refuting the
claimed fail-fast behaviour (the source's `itertools.product([], repeat=3)`
is empty, so the loop body never runs and `list(set())` is returned). -/
theorem c6_counterexample : find_all_solutions [1, 2, 3, 4] [] = [] := by
  unfold find_all_solutions
  have hcs : combos [1, 2, 3, 4] [] = [] := by
    simp [combos, opTriples]
  rw [hcs]
  rfl

/-- C6 amended: a wrong operand count or an empty operator subset is
silently absorbed: the enumeration yields nothing that evaluates (format
errors are swallowed by the bare `except`), and the solver returns the
empty list instead of signalling a distinct error. -/
theorem c6_precondition_silent (numbers : List ℤ) (ops : List Op)
    (h : numbers.length ≠ 4 ∨ ops = []) :
    find_all_solutions numbers ops = [] := by
  rcases h with hlen | rfl
  · unfold find_all_solutions
    refine foldl_solStep_none (fun c hc => ?_) []
    obtain ⟨p, t, k⟩ := c
    obtain ⟨hp, -, -⟩ := mem_combos.mp hc
    refine evalCombo_none_of_len ?_ t k
    rw [(List.mem_permutations.mp hp).length_eq]
    exact hlen
  · unfold find_all_solutions
    have hcs : combos numbers [] = [] := by
      simp [combos, opTriples]
    rw [hcs]
    rfl

/-- Witness for C6 amended: a three-number operand list is silently
answered with the empty list. -/
theorem c6_precondition_silent_witness :
    find_all_solutions [1, 2, 3] [Op.add] = [] :=
  c6_precondition_silent [1, 2, 3] [Op.add] (Or.inl (by decide))

/-- C7: for a four-entry operand list the enumeration has exactly
`24 * |ops|^3 * 6` combinations — 9216 for the four-operator subset and
1152 for the two-operator subset — with duplicate-valued operands still
contributing all `4! = 24` permutations. -/
theorem c7_combination_count (numbers : List ℤ) (ops : List Op)
    (hlen : numbers.length = 4) :
    (combos numbers ops).length = 24 * ops.length ^ 3 * 6 := by
  rw [combos_length, hlen]
  have h24 : Nat.factorial 4 = 24 := rfl
  rw [h24]
  ring

/-- Witness for C7 over the duplicate-valued operand set `[6,6,6,6]` with
the easy (two-operator) subset: exactly 1152 combinations. -/
theorem c7_combination_count_witness :
    (combos [6, 6, 6, 6] [Op.add, Op.sub]).length = 1152 := by
  have h := c7_combination_count [6, 6, 6, 6] [Op.add, Op.sub] (by decide)
  simpa using h

/-- C8 counterexample: the unparenthesised pattern is not evaluated
left-to-right.  For `1 + 2 * 3 + 4` the source's `eval` applies Python
precedence and yields 11, while the left-to-right reading
`((1 + 2) * 3) + 4` (shape index 1) yields 13. -/
theorem c8_counterexample :
    evalPattern 5 1 2 3 4 Op.add Op.mul Op.add = some 11 ∧
    evalShape 1 1 2 3 4 Op.add Op.mul Op.add = some 13 ∧
    evalPattern 5 1 2 3 4 Op.add Op.mul Op.add ≠
      evalShape 1 1 2 3 4 Op.add Op.mul Op.add := by
  refine ⟨?_, ?_, ?_⟩
  · norm_num [evalPattern, evalFlat, evalShape, isMulDiv, applyOpO, applyOp]
  · norm_num [evalShape, applyOpO, applyOp]
  · norm_num [evalPattern, evalFlat, evalShape, isMulDiv, applyOpO, applyOp]

/-- C8 amended: the solver considers exactly the six pattern indices (every
enumerated combination carries an index below 6 and indices 6 and above
evaluate nothing), and the sixth, unparenthesised pattern is evaluated
under Python operator precedence — not uniformly left-to-right — so its
value always coincides with one of the five parenthesised binary-tree
shapes; no other nesting shape is ever evaluated. -/
theorem c8_six_patterns :
    (∀ (numbers : List ℤ) (ops : List Op) (p : List ℤ) (t : Op × Op × Op)
        (k : ℕ), (p, t, k) ∈ combos numbers ops → k < 6) ∧
    (∀ (a b c d : ℚ) (o0 o1 o2 : Op), ∃ j, j < 5 ∧
        evalPattern 5 a b c d o0 o1 o2 = evalShape j a b c d o0 o1 o2) ∧
    (∀ k : ℕ, 6 ≤ k → ∀ (a b c d : ℚ) (o0 o1 o2 : Op),
        evalPattern k a b c d o0 o1 o2 = none) := by
  refine ⟨?_, ?_, ?_⟩
  · intro numbers ops p t k hk
    exact (mem_combos.mp hk).2.2
  · intro a b c d o0 o1 o2
    have h := evalFlat_eq_shape a b c d o0 o1 o2
    simpa [evalPattern] using h
  · intro k hk a b c d o0 o1 o2
    unfold evalPattern
    rw [if_neg (by omega)]
    obtain ⟨m, rfl⟩ : ∃ m, k = m + 6 := ⟨k - 6, by omega⟩
    rfl

/-- Witness for C8: a concrete enumerated combination has pattern index
below 6, and the out-of-range index 7 evaluates to nothing. -/
theorem c8_six_patterns_witness :
    (0 : ℕ) < 6 ∧ evalPattern 7 1 1 1 1 Op.add Op.add Op.add = none := by
  refine ⟨?_, ?_⟩
  · exact c8_six_patterns.1 [1, 2, 3, 4] [Op.add] [1, 2, 3, 4]
      (Op.add, Op.add, Op.add) 0 (by decide)
  · exact c8_six_patterns.2.2 7 (by norm_num) 1 1 1 1 Op.add Op.add Op.add

/-- C9 counterexample: `has_trivial_solution([4,6,0,0])` contains a zero
operand yet returns the boolean `True` without raising — the early
`return True` for the divisor 4 (quotient 6 present) fires before the
loop reaches the zero. -/
theorem c9_counterexample :
    (0 : ℤ) ∈ ([4, 6, 0, 0] : List ℤ) ∧
      has_trivial_solution [4, 6, 0, 0] = some true := by
  refine ⟨by decide, by decide⟩

/-- C9 amended: the classifier is total on operand lists of nonzero
integers, and it raises `ZeroDivisionError` (returns no boolean) exactly
when the walk reaches a zero operand: if every operand before the first
zero fails the quotient condition, the evaluation is `none`. -/
theorem c9_zero_raises :
    (∀ numbers : List ℤ, (∀ n ∈ numbers, n ≠ 0) →
        ∃ b, has_trivial_solution numbers = some b) ∧
    (∀ l1 l2 : List ℤ,
        (∀ n ∈ l1, n ≠ 0 ∧ ¬(24 % n = 0 ∧ (24 / n) ∈ (l1 ++ 0 :: l2))) →
        has_trivial_solution (l1 ++ 0 :: l2) = none) := by
  constructor
  · intro numbers h
    exact trivLoop_isSome numbers h
  · intro l1 l2 h
    unfold has_trivial_solution
    exact trivLoop_zero l1 l2 h

/-- Witness for C9: a leading zero raises (`[0,1,2,3]` maps to `none`),
while an all-nonzero list gets a boolean. -/
theorem c9_zero_raises_witness :
    has_trivial_solution [0, 1, 2, 3] = none ∧
      ∃ b, has_trivial_solution [1, 1, 1, 1] = some b := by
  constructor
  · exact c9_zero_raises.2 [] [1, 2, 3] (by decide)
  · exact c9_zero_raises.1 [1, 1, 1, 1] (by decide)

/-- C10: the initial difficulty is a key of `available_operators`;
`set_difficulty` with a string whose lowercase form is not a key returns
`False` and leaves the whole state unchanged; the difficulty stays a key
under any `set_difficulty` call; and the only keys are the four levels
easy, normal, hard, expert — so every later operator lookup by the stored
difficulty succeeds. -/
theorem c10_difficulty_invariant :
    ((available_operators.lookup initGame.difficulty).isSome = true) ∧
    (∀ (g : TwentyFourGame) (d : String),
        ((available_operators.lookup (strLower d)).isSome = false →
          set_difficulty g d = (g, false)) ∧
        ((available_operators.lookup g.difficulty).isSome = true →
          (available_operators.lookup
            ((set_difficulty g d).1.difficulty)).isSome = true)) ∧
    (∀ s : String, (available_operators.lookup s).isSome = true →
        s = "easy" ∨ s = "normal" ∨ s = "hard" ∨ s = "expert") := by
  refine ⟨by decide, ?_, ?_⟩
  · intro g d
    constructor
    · intro h
      unfold set_difficulty
      rw [if_neg (by rw [h]; exact Bool.false_ne_true)]
    · intro h
      unfold set_difficulty
      split_ifs with hcond
      · exact hcond
      · exact h
  · intro s h
    by_cases h1 : s = "easy"
    · exact Or.inl h1
    by_cases h2 : s = "normal"
    · exact Or.inr (Or.inl h2)
    by_cases h3 : s = "hard"
    · exact Or.inr (Or.inr (Or.inl h3))
    by_cases h4 : s = "expert"
    · exact Or.inr (Or.inr (Or.inr h4))
    exfalso
    have e1 : (s == "easy") = false := beq_eq_false_iff_ne.mpr h1
    have e2 : (s == "normal") = false := beq_eq_false_iff_ne.mpr h2
    have e3 : (s == "hard") = false := beq_eq_false_iff_ne.mpr h3
    have e4 : (s == "expert") = false := beq_eq_false_iff_ne.mpr h4
    simp [available_operators, List.lookup, e1, e2, e3, e4] at h

/-- Witness for C10: `set_difficulty` on the invalid name `"banana"`
leaves the initial state untouched and reports `False`, while after
`set_difficulty` with `"HARD"` the stored difficulty still has a
successful operator lookup. -/
theorem c10_difficulty_invariant_witness :
    set_difficulty initGame "banana" = (initGame, false) ∧
      (available_operators.lookup
        ((set_difficulty initGame "HARD").1.difficulty)).isSome = true := by
  constructor
  · exact (c10_difficulty_invariant.2.1 initGame "banana").1 (by decide)
  · exact (c10_difficulty_invariant.2.1 initGame "HARD").2
      c10_difficulty_invariant.1

end TwentyFour
